import Mathlib

/-!
The program valheim_pause: a JACK MIDI client that pauses and resumes a process.

A shallow embedding of `src/valheim_pause.c`.

* `getPID` walks `/proc`, and for each entry whose name starts with a digit opens
  `/proc/<tgid>/comm` and compares each line read by `fgets` with `"valheim"`.
* `process` is the JACK callback: for every MIDI event of the cycle it recognises
  the two Control-Change triggers and calls `getPID` and `kill`.

The operating system is an explicit input (`OS`): how many descriptors the process
can still open, what `opendir`/`readdir`/`fopen` yield at every lookup, and what
every `kill` call returns.  The callback carries its own state (`Callback`) from one
event to the next: `getPID` returns from inside its loops without `fclose` or
`closedir`, so the descriptors it leaves open are no longer available to the next
lookup.  Every library or system call the code makes is logged as an `Effect`, in
program order.
-/

set_option autoImplicit false

namespace ValheimPause

/-! ## Data model -/

/-- The two signals the program sends. -/
inductive Signal where
  | SIGSTOP
  | SIGCONT
  deriving DecidableEq, Repr

/-- One library or system call made by the program. -/
inductive Effect where
  | opendir
  | perror
  | readdir
  | fopen (tgid : Int)
  | fgets
  | fclose
  | closedir
  | kill (pid : Int) (sig : Signal) (rc : Int)
  deriving DecidableEq, Repr

/-- One entry of `/proc` as `readdir` returns it, together with what
`fopen("/proc/<tgid>/comm", "r")` yields when `getPID` reaches the entry:
`none` when the file cannot be opened, otherwise the bytes of the file. -/
structure dirent where
  d_name : List Char
  comm : Option (List Char)
  deriving DecidableEq, Repr

/-- The operating system as the callback sees it.  `nofile` is the number of
descriptors the process can still open when the callback starts (its limit minus
those it holds).  `proc k` is what `/proc` offers to the `k`-th lookup of the
callback (counted from 0) as long as descriptors are left: `none` when
`opendir("/proc")` fails for another reason, otherwise the entries in `readdir`
order.  `kill k` is the return value of the `k`-th call of `kill`. -/
structure OS where
  nofile : Nat
  proc : Nat → Option (List dirent)
  kill : Nat → Int

/-- The state the running callback carries from one event to the next: `calls` is
the number of lookups made so far (each is followed by one `kill`, so it is also the
number of `kill` calls), `free` the number of descriptors that can still be opened. -/
structure Callback where
  calls : Nat
  free : Nat
  deriving DecidableEq, Repr

/-- A MIDI event as `jack_midi_event_get` fills it in: `buffer i` is the
byte `midi_event.buffer[i]`. -/
structure jack_midi_event_t where
  time : Nat
  size : Nat
  buffer : Nat → Nat

/-! ## libc -/

/-- The largest `long`. -/
def LONG_MAX : Int := 2 ^ 63 - 1

/-- The digits branch of `strtol(s, NULL, 10)`: accumulate decimal digits until
the first byte that is not one. -/
def strtolDigits : Nat → List Char → Nat
  | acc, [] => acc
  | acc, c :: cs =>
    if c.isDigit then strtolDigits (acc * 10 + (c.toNat - '0'.toNat)) cs else acc

/-- The function `strtol(s, NULL, 10)` on a string whose first byte is a digit (the only way
`getPID` calls it): the value of the leading digits, clamped to `LONG_MAX`. -/
def strtol (s : List Char) : Int :=
  min (strtolDigits 0 s : Int) LONG_MAX

/-- Conversion of a `long` to `pid_t` (a 32-bit `int`): wrap modulo `2^32`. -/
def toPid (v : Int) : Int :=
  (v + 2 ^ 31) % 2 ^ 32 - 2 ^ 31

/-- The bytes of a buffer up to its terminating NUL. -/
def cstr (s : List Char) : List Char :=
  s.takeWhile (fun c => c != '\x00')

/-- The comparison `strncmp(a, b, n)` on NUL-terminated strings given by their bytes. -/
def strncmp : List Char → List Char → Nat → Int
  | _, _, 0 => 0
  | [], [], _ + 1 => 0
  | [], b :: _, _ + 1 => - (b.toNat : Int)
  | a :: _, [], _ + 1 => (a.toNat : Int)
  | a :: as, b :: bs, n + 1 =>
    if a = b then strncmp as bs n else (a.toNat : Int) - (b.toNat : Int)

/-- The part of `fgets` that copies bytes: at most `room` bytes, stopping after a
newline or at end of file.  Returns the bytes stored and the rest of the stream. -/
def fgetsCopy : Nat → List Char → List Char × List Char
  | 0, stream => ([], stream)
  | _ + 1, [] => ([], [])
  | room + 1, c :: cs =>
    if c = '\n' then ([c], cs)
    else ((fgetsCopy room cs).1.cons c, (fgetsCopy room cs).2)

/-- The call `fgets(line, size, stream)`: `none` (NULL) at end of file, otherwise the
line stored in the buffer (at most `size - 1` bytes) and the rest of the stream. -/
def fgets (size : Nat) (stream : List Char) : Option (List Char × List Char) :=
  match stream with
  | [] => none
  | _ :: _ => some (fgetsCopy (size - 1) stream)

/-! ## getPID -/

/-- The name prefix the program looks for. -/
def target : List Char := ['v', 'a', 'l', 'h', 'e', 'i', 'm']

/-- The test `isdigit(*ent->d_name)`; an empty name starts with NUL. -/
def isdigitHead (d_name : List Char) : Bool :=
  match d_name with
  | [] => false
  | c :: _ => c.isDigit

/-- The inner loop `while (fgets(line, 100, statusf))` of `getPID`, with the
calls it makes: `true` when some line makes `strncmp(line, "valheim", 7) == 0`
(the function then returns from inside the loop), `false` when `fgets` returns
NULL.  The first argument bounds the number of iterations; `scanComm` passes
the length of the stream, which is never exhausted before `fgets` returns NULL
(`scanLines_fuel`). -/
def scanLines : Nat → List Char → Bool × List Effect
  | 0, _ => (false, [Effect.fgets])
  | fuel + 1, stream =>
    match fgets 100 stream with
    | none => (false, [Effect.fgets])
    | some r =>
      if strncmp (cstr r.1) target 7 = 0 then (true, [Effect.fgets])
      else ((scanLines fuel r.2).1, Effect.fgets :: (scanLines fuel r.2).2)

/-- The inner loop of `getPID` on a whole `comm` stream. -/
def scanComm (stream : List Char) : Bool × List Effect :=
  scanLines stream.length stream

/-- The loop `while ((ent = readdir(proc)))` of `getPID`, from the entries not
yet read: the value returned and the calls made. -/
def readdirLoop : List dirent → Int × List Effect
  | [] => (0, [Effect.readdir, Effect.closedir])
  | ent :: rest =>
    if !isdigitHead ent.d_name then
      ((readdirLoop rest).1, Effect.readdir :: (readdirLoop rest).2)
    else
      let tgid := toPid (strtol ent.d_name)
      match ent.comm with
      | none => (0, [Effect.readdir, Effect.fopen tgid])
      | some stream =>
        if (scanComm stream).1 then
          (tgid, Effect.readdir :: Effect.fopen tgid :: (scanComm stream).2)
        else
          ((readdirLoop rest).1,
            Effect.readdir :: Effect.fopen tgid :: (scanComm stream).2
              ++ Effect.fclose :: (readdirLoop rest).2)

/-- The function `getPID()`: the value returned and the calls made. -/
def getPID (proc : Option (List dirent)) : Int × List Effect :=
  match proc with
  | none => (1, [Effect.opendir, Effect.perror])
  | some ents => ((readdirLoop ents).1, Effect.opendir :: (readdirLoop ents).2)

/-! ## Descriptors -/

/-- What `opendir("/proc")` and the `fopen` calls of one `getPID` call yield when
`free` descriptors can still be opened.  With none, `opendir` fails.  With one,
`opendir` takes it and every `fopen` fails.  With two or more the calls go as the
system allows: `getPID` holds the directory stream and at most one `comm` file at a
time. -/
def withDescriptors (free : Nat) (proc : Option (List dirent)) : Option (List dirent) :=
  if free = 0 then none
  else if free = 1 then
    proc.map (fun ents => ents.map (fun e => { d_name := e.d_name, comm := none }))
  else proc

/-- The descriptors the loop of `getPID` leaves open when the function returns,
from the entries not yet read.  The `return 0` after a failed `fopen` (line 42)
leaves the directory stream open; the `return tgid` (line 46) leaves the directory
stream and the `comm` file open; the end of the loop is followed by `closedir`, and
every file read without a match was closed by `fclose`. -/
def leakLoop : List dirent → Nat
  | [] => 0
  | ent :: rest =>
    if !isdigitHead ent.d_name then leakLoop rest
    else
      match ent.comm with
      | none => 1
      | some stream => if (scanComm stream).1 then 2 else leakLoop rest

/-- The descriptors one call of `getPID` leaves open: none when `opendir` failed. -/
def leaked (proc : Option (List dirent)) : Nat :=
  match proc with
  | none => 0
  | some ents => leakLoop ents

/-! ## process -/

/-- The state in which the callback starts. -/
def start (os : OS) : Callback :=
  { calls := 0, free := os.nofile }

/-- What the lookup made in state `st` finds in `/proc`. -/
def lookupAt (os : OS) (st : Callback) : Option (List dirent) :=
  withDescriptors st.free (os.proc st.calls)

/-- The two statements `pid_t pid = getPID(); kill(pid, sig);` of `process`: the
state after them and the calls made. -/
def signalTarget (os : OS) (st : Callback) (sig : Signal) : Callback × List Effect :=
  ({ calls := st.calls + 1, free := st.free - leaked (lookupAt os st) },
    (getPID (lookupAt os st)).2 ++
      [Effect.kill (getPID (lookupAt os st)).1 sig (os.kill st.calls)])

/-- The body of the `for` loop of `process` for one event, from the state `st` of
the callback: the state after the event and the calls made for it. -/
def handleEvent (os : OS) (st : Callback) (midi_event : jack_midi_event_t) :
    Callback × List Effect :=
  if midi_event.buffer 0 = 0xb0 then
    let r1 : Callback × List Effect :=
      if midi_event.buffer 1 = 42 ∧ midi_event.buffer 2 = 127 then
        signalTarget os st Signal.SIGSTOP
      else (st, [])
    let r2 : Callback × List Effect :=
      if midi_event.buffer 1 = 41 ∧ midi_event.buffer 2 = 127 then
        signalTarget os r1.1 Signal.SIGCONT
      else (r1.1, [])
    (r2.1, r1.2 ++ r2.2)
  else (st, [])

/-- The `for` loop of `process` over the events of the cycle, in order. -/
def eventLoop (os : OS) : Callback → List jack_midi_event_t → List Effect
  | _, [] => []
  | st, midi_event :: rest =>
    (handleEvent os st midi_event).2 ++ eventLoop os (handleEvent os st midi_event).1 rest

/-- The callback `process()`: its return value and the calls it made, for the
events of one cycle. -/
def process (os : OS) (events : List jack_midi_event_t) : Int × List Effect :=
  if events.length > 0 then (0, eventLoop os (start os) events) else (0, [])

/-! ## Observations on a trace -/

/-- The `kill` calls of a trace, in order: target identifier and signal. -/
def kills : List Effect → List (Int × Signal)
  | [] => []
  | Effect.kill pid sig _ :: t => (pid, sig) :: kills t
  | _ :: t => kills t

/-- The number of process lookups (calls of `getPID`) in a trace: each call
starts with exactly one `opendir`. -/
def lookups : List Effect → Nat
  | [] => 0
  | Effect.opendir :: t => lookups t + 1
  | _ :: t => lookups t

/-! ## Events and process tables -/

/-- A three-byte MIDI event. -/
def midi (status data1 data2 : Nat) : jack_midi_event_t :=
  { time := 0, size := 3, buffer := fun i => [status, data1, data2].getD i 0 }

/-- A `comm` file that holds a process name: the name followed by a newline. -/
def commOf (name : List Char) : List Char := name ++ ['\n']

/-- The `/proc` entries of a process table of (identifier, name) records: the
directory name is the identifier in decimal, the `comm` file holds the name. -/
def procOf (table : List (Nat × List Char)) : List dirent :=
  table.map (fun r => { d_name := Nat.toDigits 10 r.1, comm := some (commOf r.2) })

/-! ## Notions used in the statements -/

/-- The entry is one `getPID` returns at: its name starts with a digit, its `comm`
file opens, and one of its lines matches. -/
def hit (ent : dirent) : Bool :=
  isdigitHead ent.d_name &&
    match ent.comm with
    | none => false
    | some stream => (scanComm stream).1

/-- The first record of a table whose `comm` file has a matching line, as the
inner loop of `getPID` reads it. -/
def firstLineMatch (table : List (Nat × List Char)) : Option (Nat × List Char) :=
  table.find? (fun r => (scanComm (commOf r.2)).1)

/-- The lookup the specification describes: the identifier of the first record whose
name begins with the prefix `"valheim"` (compared byte by byte, so case-sensitive),
and the not-found value `0` when there is none. -/
def specLookup (table : List (Nat × List Char)) : Int :=
  match table.find? (fun r => target.isPrefixOf r.2) with
  | some r => (r.1 : Int)
  | none => 0

/-- The state of the callback once the events of a batch prefix are handled,
starting from `st`. -/
def stateAfter (os : OS) : Callback → List jack_midi_event_t → Callback
  | st, [] => st
  | st, midi_event :: rest => stateAfter os (handleEvent os st midi_event).1 rest

/-- The event carries the Pause pattern of the specification: Control-Change `0xB0`,
controller 42, value 127. -/
def isPause (ev : jack_midi_event_t) : Bool :=
  ev.buffer 0 == 0xb0 && ev.buffer 1 == 42 && ev.buffer 2 == 127

/-- The event carries the Resume pattern of the specification: Control-Change `0xB0`,
controller 41, value 127. -/
def isResume (ev : jack_midi_event_t) : Bool :=
  ev.buffer 0 == 0xb0 && ev.buffer 1 == 41 && ev.buffer 2 == 127

/-- The event is one of the two recognised triggers. -/
def isTrigger (ev : jack_midi_event_t) : Bool :=
  isPause ev || isResume ev

/-- The trace with the return value of every `kill` call blanked: which calls
were made, without their outcomes. -/
def eraseRc : Effect → Effect
  | Effect.kill pid sig _ => Effect.kill pid sig 0
  | e => e

/-- The run state of a process, as the operating system keeps it. -/
inductive RunState where
  | running
  | stopped
  deriving DecidableEq, Repr

/-- The operating-system model of the two signals: `SIGSTOP` makes the process stopped,
`SIGCONT` makes it running. -/
def deliver : Signal → RunState → RunState
  | Signal.SIGSTOP, _ => RunState.stopped
  | Signal.SIGCONT, _ => RunState.running

/-- The run state of process `p` after the signal deliveries `ks`, in order. -/
def runStateAfter (p : Int) : List (Int × Signal) → RunState → RunState
  | [], s => s
  | k :: ks, s => runStateAfter p ks (if k.1 = p then deliver k.2 s else s)

/-- A process table with a running `valheim_server`, and a process named `Valheim`
that the case-sensitive comparison does not match. -/
def tableFound : List (Nat × List Char) :=
  [(1, "systemd".toList), (23, "valheim_server".toList), (40, "Valheim".toList)]

/-- A process table without the target. -/
def tableNotFound : List (Nat × List Char) :=
  [(1, "systemd".toList), (40, "Valheim".toList)]

/-- A process table whose only process has a two-line name, the second line
beginning with `"valheim"`. -/
def tableTwoLines : List (Nat × List Char) :=
  [(7, ['x', '\n', 'v', 'a', 'l', 'h', 'e', 'i', 'm'])]

/-- A `/proc` listing in which process 17 exits during the scan (its `comm` file
cannot be opened) before the entry of `valheim_server` is reached. -/
def procRace : List dirent :=
  [{ d_name := "self".toList, comm := none },
   { d_name := "1".toList, comm := some (commOf "systemd".toList) },
   { d_name := "17".toList, comm := none },
   { d_name := "23".toList, comm := some (commOf "valheim_server".toList) }]

/-- An operating system with `nofile` descriptors left, the same process table at
every lookup, and in which every `kill` call succeeds. -/
def osWith (nofile : Nat) (table : List (Nat × List Char)) : OS :=
  { nofile := nofile, proc := fun _ => some (procOf table), kill := fun _ => 0 }

/-- An operating system with descriptors to spare. -/
def osOf (table : List (Nat × List Char)) : OS :=
  osWith 64 table

/-- An operating system in which `/proc` cannot be opened. -/
def osNoProc : OS :=
  { nofile := 64, proc := fun _ => none, kill := fun _ => 0 }

/-! ## libc lemmas -/

theorem Char_toNat_inj {a b : Char} (h : a.toNat = b.toNat) : a = b := by
  apply Char.ext
  cases a with
  | mk va ha =>
    cases b with
    | mk vb hb =>
      cases va with
      | mk fa =>
        cases vb with
        | mk fb =>
          simp only [Char.toNat, UInt32.toNat] at h
          have : fa = fb := BitVec.eq_of_toNat_eq h
          subst this
          rfl

theorem strncmp_eq_zero (b : List Char) (hb : ∀ c ∈ b, c ≠ '\x00') :
    ∀ a : List Char, strncmp (cstr a) b b.length = 0 ↔ b <+: a := by
  induction b with
  | nil => intro a; simp [strncmp]
  | cons c bs ih =>
    intro a
    have hc : c ≠ '\x00' := hb c (List.mem_cons_self _ _)
    have hc0 : (c.toNat : Int) ≠ 0 := by
      intro h0
      apply hc
      apply Char_toNat_inj
      have : c.toNat = 0 := by exact_mod_cast h0
      rw [this]; rfl
    have ih2 := ih (fun x hx => hb x (List.mem_cons_of_mem _ hx))
    cases a with
    | nil =>
      simp [cstr, strncmp, hc0]
    | cons x xs =>
      by_cases hx : x = '\x00'
      · subst hx
        have : cstr ('\x00' :: xs) = [] := by simp [cstr]
        rw [this]
        simp [strncmp, hc0]
        intro h; exact absurd h hc
      · have : cstr (x :: xs) = x :: cstr xs := by simp [cstr, hx]
        rw [this]
        by_cases hxc : x = c
        · subst hxc
          simp only [List.length_cons, strncmp, if_true]
          rw [ih2 xs]
          simp [List.cons_prefix_cons]
        · have hne : (x.toNat : Int) - (c.toNat : Int) ≠ 0 := by
            intro h0
            apply hxc
            apply Char_toNat_inj
            omega
          simp only [List.length_cons, strncmp, if_neg hxc]
          simp [List.cons_prefix_cons, hne]
          intro h; exact absurd h.symm hxc

theorem target_match (line : List Char) :
    strncmp (cstr line) target 7 = 0 ↔ target <+: line := by
  have h := strncmp_eq_zero target (by decide) line
  simpa [target] using h

theorem fgetsCopy_line (name : List Char) (hnl : '\n' ∉ name) :
    ∀ room : Nat, name.length < room →
      fgetsCopy room (name ++ ['\n']) = (name ++ ['\n'], []) := by
  induction name with
  | nil =>
    intro room hroom
    cases room with
    | zero => omega
    | succ r => simp [fgetsCopy]
  | cons c cs ih =>
    intro room hroom
    cases room with
    | zero => omega
    | succ r =>
      have hc : c ≠ '\n' := fun h => hnl (h ▸ List.mem_cons_self _ _)
      have hcs : '\n' ∉ cs := fun h => hnl (List.mem_cons_of_mem _ h)
      have hlen : cs.length < r := by simp at hroom; omega
      simp [fgetsCopy, hc, ih hcs r hlen]

theorem fgetsCopy_rest_le (room : Nat) (stream : List Char) :
    (fgetsCopy room stream).2.length ≤ stream.length := by
  induction stream generalizing room with
  | nil => cases room <;> simp [fgetsCopy]
  | cons c cs ih =>
    cases room with
    | zero => simp [fgetsCopy]
    | succ r =>
      by_cases hc : c = '\n'
      · simp [fgetsCopy, hc]
      · simp only [fgetsCopy, if_neg hc, List.length_cons]
        have := ih r
        omega

theorem fgetsCopy_rest_lt (room : Nat) (c : Char) (cs : List Char) :
    (fgetsCopy (room + 1) (c :: cs)).2.length < (c :: cs).length := by
  by_cases hc : c = '\n'
  · simp [fgetsCopy, hc]
  · simp only [fgetsCopy, if_neg hc, List.length_cons]
    have := fgetsCopy_rest_le room cs
    omega

/-- The iteration bound of `scanLines` is never what ends the loop: with any
bound of at least the length of the stream the loop ends because `fgets`
returned NULL or a line matched, with the same result. -/
theorem scanLines_fuel :
    ∀ (f1 f2 : Nat) (stream : List Char), stream.length ≤ f1 → stream.length ≤ f2 →
      scanLines f1 stream = scanLines f2 stream := by
  intro f1
  induction f1 with
  | zero =>
    intro f2 stream h1 _
    have hs : stream = [] := List.length_eq_zero.mp (Nat.le_zero.mp h1)
    subst hs
    cases f2 <;> simp [scanLines, fgets]
  | succ f1 ih =>
    intro f2 stream h1 h2
    cases stream with
    | nil => cases f2 <;> simp [scanLines, fgets]
    | cons c cs =>
      cases f2 with
      | zero => simp at h2
      | succ f2 =>
        have hlt := fgetsCopy_rest_lt 98 c cs
        have e := ih f2 (fgetsCopy 99 (c :: cs)).2 (by simp at h1 hlt ⊢; omega)
          (by simp at h2 hlt ⊢; omega)
        simp only [scanLines, fgets, e]

theorem scanComm_nil : scanComm [] = (false, [Effect.fgets]) := by
  simp [scanComm, scanLines]

theorem scanComm_cons (c : Char) (cs : List Char) :
    scanComm (c :: cs) =
      if strncmp (cstr (fgetsCopy 99 (c :: cs)).1) target 7 = 0 then (true, [Effect.fgets])
      else ((scanComm (fgetsCopy 99 (c :: cs)).2).1,
        Effect.fgets :: (scanComm (fgetsCopy 99 (c :: cs)).2).2) := by
  have hlt := fgetsCopy_rest_lt 98 c cs
  have e := scanLines_fuel cs.length (fgetsCopy 99 (c :: cs)).2.length
    (fgetsCopy 99 (c :: cs)).2 (by simp at hlt ⊢; omega) (le_refl _)
  simp only [scanComm, List.length_cons, scanLines, fgets, e]

theorem prefix_concat_of_not_mem (t n : List Char) (c : Char) (hc : c ∉ t) :
    t <+: n ++ [c] ↔ t <+: n := by
  rw [List.prefix_concat_iff]
  constructor
  · rintro (h | h)
    · exact absurd (h ▸ List.mem_append_right n (List.mem_singleton_self c)) hc
    · exact h
  · intro h; exact Or.inr h

/-- On a `comm` file holding one name shorter than 99 bytes without a newline,
the inner loop matches exactly when the name begins with `"valheim"`. -/
theorem scanComm_commOf (name : List Char) (hnl : '\n' ∉ name) (hlen : name.length < 99) :
    (scanComm (commOf name)).1 = target.isPrefixOf name := by
  have hcopy := fgetsCopy_line name hnl 99 hlen
  have hne : commOf name ≠ [] := by simp [commOf]
  obtain ⟨c, cs, hcs⟩ := List.exists_cons_of_ne_nil hne
  have hcopy2 : fgetsCopy 99 (c :: cs) = (c :: cs, []) := by
    rw [← hcs]; exact hcopy
  rw [hcs, scanComm_cons, hcopy2]
  simp only [scanComm_nil]
  have hiff : strncmp (cstr (c :: cs)) target 7 = 0 ↔ target <+: name := by
    rw [target_match, ← hcs, commOf]
    exact prefix_concat_of_not_mem target name '\n' (by decide)
  by_cases hp : target <+: name
  · have h1 : strncmp (cstr (c :: cs)) target 7 = 0 := hiff.mpr hp
    have h2 : target.isPrefixOf name = true := List.isPrefixOf_iff_prefix.mpr hp
    simp [h1, h2]
  · have h1 : ¬ strncmp (cstr (c :: cs)) target 7 = 0 := fun h => hp (hiff.mp h)
    have h2 : target.isPrefixOf name = false := by
      cases h : target.isPrefixOf name with
      | false => rfl
      | true => exact absurd (List.isPrefixOf_iff_prefix.mp h) hp
    simp [h1, h2]

/-! ## Decimal directory names -/

theorem digitChar_isDigit (k : Nat) (hk : k < 10) :
    (Nat.digitChar k).isDigit = true ∧ (Nat.digitChar k).toNat - '0'.toNat = k := by
  interval_cases k <;> decide

theorem strtolDigits_toDigitsCore :
    ∀ (fuel n : Nat) (ds : List Char), n < fuel →
      strtolDigits 0 (Nat.toDigitsCore 10 fuel n ds) = strtolDigits n ds := by
  intro fuel
  induction fuel with
  | zero => intro n ds h; omega
  | succ fuel ih =>
    intro n ds h
    have hd := digitChar_isDigit (n % 10) (Nat.mod_lt _ (by decide))
    by_cases h0 : n / 10 = 0
    · have hn : n % 10 = n := by omega
      simp only [Nat.toDigitsCore, h0, if_true, strtolDigits, hd.1, hd.2]
      simp [hn]
    · have hlt : n / 10 < fuel := by omega
      simp only [Nat.toDigitsCore, if_neg h0]
      rw [ih (n / 10) _ hlt]
      simp only [strtolDigits, hd.1, hd.2, if_true]
      have : n / 10 * 10 + n % 10 = n := by omega
      rw [this]

theorem isdigitHead_toDigitsCore :
    ∀ (fuel n : Nat) (ds : List Char), n < fuel →
      isdigitHead (Nat.toDigitsCore 10 fuel n ds) = true := by
  intro fuel
  induction fuel with
  | zero => intro n ds h; omega
  | succ fuel ih =>
    intro n ds h
    have hd := digitChar_isDigit (n % 10) (Nat.mod_lt _ (by decide))
    by_cases h0 : n / 10 = 0
    · simp [Nat.toDigitsCore, h0, isdigitHead, hd.1]
    · have hlt : n / 10 < fuel := by omega
      simp only [Nat.toDigitsCore, if_neg h0]
      exact ih (n / 10) _ hlt

/-- Reading back the decimal name of an identifier below `2^31` gives the
identifier. -/
theorem tgid_toDigits (pid : Nat) (h : pid < 2 ^ 31) :
    toPid (strtol (Nat.toDigits 10 pid)) = (pid : Int) := by
  have e : strtolDigits 0 (Nat.toDigits 10 pid) = pid := by
    unfold Nat.toDigits
    rw [strtolDigits_toDigitsCore (pid + 1) pid [] (Nat.lt_succ_self _)]
    rfl
  simp only [strtol, toPid, LONG_MAX, e]
  norm_num at h
  have h1 : min (pid : Int) (2 ^ 63 - 1) = pid := by
    apply min_eq_left
    norm_num
    omega
  rw [h1]
  norm_num
  omega

theorem isdigitHead_toDigits (pid : Nat) : isdigitHead (Nat.toDigits 10 pid) = true := by
  unfold Nat.toDigits
  exact isdigitHead_toDigitsCore (pid + 1) pid [] (Nat.lt_succ_self _)

/-! ## getPID on a process table -/

theorem readdirLoop_procOf (table : List (Nat × List Char))
    (hpid : ∀ r ∈ table, r.1 < 2 ^ 31) :
    (readdirLoop (procOf table)).1 =
      match firstLineMatch table with
      | some r => (r.1 : Int)
      | none => 0 := by
  induction table with
  | nil => simp [procOf, readdirLoop, firstLineMatch]
  | cons r rest ih =>
    have hr : r.1 < 2 ^ 31 := hpid r (List.mem_cons_self _ _)
    have ih2 := ih (fun x hx => hpid x (List.mem_cons_of_mem _ hx))
    have hdig := isdigitHead_toDigits r.1
    have htg := tgid_toDigits r.1 hr
    by_cases hm : (scanComm (commOf r.2)).1 = true
    · simp [procOf, readdirLoop, firstLineMatch, hdig, htg, hm]
    · have hm2 : (scanComm (commOf r.2)).1 = false := by
        cases h : (scanComm (commOf r.2)).1 with
        | false => rfl
        | true => exact absurd h hm
      simp only [procOf, firstLineMatch] at ih2
      simp [procOf, readdirLoop, firstLineMatch, hdig, hm2, ih2]

/-! ## Traces of getPID and of the event loop -/

theorem kills_append (a b : List Effect) : kills (a ++ b) = kills a ++ kills b := by
  induction a with
  | nil => rfl
  | cons e t ih => cases e <;> simp [kills, ih]

theorem lookups_append (a b : List Effect) : lookups (a ++ b) = lookups a + lookups b := by
  induction a with
  | nil => simp [lookups]
  | cons e t ih =>
    cases e <;> simp [lookups, ih]
    omega

theorem scanLines_trace (fuel : Nat) (stream : List Char) :
    kills (scanLines fuel stream).2 = [] ∧ lookups (scanLines fuel stream).2 = 0 := by
  induction fuel generalizing stream with
  | zero => simp [scanLines, kills, lookups]
  | succ fuel ih =>
    cases stream with
    | nil => simp [scanLines, fgets, kills, lookups]
    | cons c cs =>
      simp only [scanLines, fgets]
      split
      · simp [kills, lookups]
      · simp [kills, lookups, ih]

theorem readdirLoop_trace (ents : List dirent) :
    kills (readdirLoop ents).2 = [] ∧ lookups (readdirLoop ents).2 = 0 := by
  induction ents with
  | nil => simp [readdirLoop, kills, lookups]
  | cons ent rest ih =>
    simp only [readdirLoop]
    split
    · simp [kills, lookups, ih]
    · split
      · simp [kills, lookups]
      · rename_i stream _
        have hs := scanLines_trace stream.length stream
        split
        · simp [kills, lookups, scanComm, hs]
        · simp [kills, lookups, scanComm, hs, kills_append, lookups_append, ih]

/-- A call of `getPID` sends no signal and opens `/proc` exactly once. -/
theorem getPID_trace (proc : Option (List dirent)) :
    kills (getPID proc).2 = [] ∧ lookups (getPID proc).2 = 1 := by
  cases proc with
  | none => simp [getPID, kills, lookups]
  | some ents => simp [getPID, kills, lookups, readdirLoop_trace]

theorem mem_kills_of_mem (t : List Effect) (pid : Int) (sig : Signal) (rc : Int)
    (h : Effect.kill pid sig rc ∈ t) : (pid, sig) ∈ kills t := by
  induction t with
  | nil => simp at h
  | cons e t ih =>
    rcases List.mem_cons.mp h with h1 | h1
    · subst h1; simp [kills]
    · cases e <;> simp [kills, ih h1]

theorem getPID_no_kill (proc : Option (List dirent)) (pid : Int) (sig : Signal) (rc : Int) :
    Effect.kill pid sig rc ∉ (getPID proc).2 := by
  intro h
  have := mem_kills_of_mem _ _ _ _ h
  rw [(getPID_trace proc).1] at this
  simp at this

theorem withDescriptors_of_two_le (free : Nat) (proc : Option (List dirent))
    (h : 2 ≤ free) : withDescriptors free proc = proc := by
  unfold withDescriptors
  rw [if_neg (by omega), if_neg (by omega)]

theorem leakLoop_le (ents : List dirent) : leakLoop ents ≤ 2 := by
  induction ents with
  | nil => simp [leakLoop]
  | cons ent rest ih =>
    simp only [leakLoop]
    split
    · exact ih
    · split
      · omega
      · split
        · omega
        · exact ih

theorem leakLoop_unreadable (ents : List dirent) :
    leakLoop (ents.map (fun e => { d_name := e.d_name, comm := none })) ≤ 1 := by
  induction ents with
  | nil => simp [leakLoop]
  | cons ent rest ih =>
    simp only [List.map_cons, leakLoop]
    split
    · exact ih
    · omega

theorem scanLines_all_fgets (fuel : Nat) (stream : List Char) :
    ∀ e ∈ (scanLines fuel stream).2, e = Effect.fgets := by
  induction fuel generalizing stream with
  | zero => simp [scanLines]
  | succ fuel ih =>
    cases stream with
    | nil => simp [scanLines, fgets]
    | cons c cs =>
      simp only [scanLines, fgets]
      split
      · simp
      · intro e he
        rcases List.mem_cons.mp he with h | h
        · exact h
        · exact ih _ e h

/-- The descriptor account agrees with the calls: `getPID` leaves nothing open
exactly when its scan reached `closedir`. -/
theorem leakLoop_eq_zero_iff (ents : List dirent) :
    leakLoop ents = 0 ↔ Effect.closedir ∈ (readdirLoop ents).2 := by
  induction ents with
  | nil => simp [leakLoop, readdirLoop]
  | cons ent rest ih =>
    simp only [leakLoop, readdirLoop]
    split
    · simp [ih]
    · split
      · simp
      · rename_i stream _
        have hs := scanLines_all_fgets stream.length stream
        have hn : Effect.closedir ∉ (scanComm stream).2 := by
          intro h
          have := hs _ h
          simp at this
        split
        · simp [hn]
        · simp [hn, ih]

/-- A lookup never leaves open more descriptors than it could open. -/
theorem leaked_le_free (free : Nat) (proc : Option (List dirent)) :
    leaked (withDescriptors free proc) ≤ free := by
  unfold withDescriptors
  by_cases h0 : free = 0
  · simp [h0, leaked]
  · by_cases h1 : free = 1
    · rw [if_neg h0, if_pos h1]
      cases proc with
      | none => simp [leaked]
      | some ents =>
        simp only [Option.map_some', leaked]
        have := leakLoop_unreadable ents
        omega
    · rw [if_neg h0, if_neg h1]
      cases proc with
      | none => simp [leaked]
      | some ents =>
        simp only [leaked]
        have := leakLoop_le ents
        omega

theorem signalTarget_trace (os : OS) (st : Callback) (sig : Signal) :
    (signalTarget os st sig).1.calls = st.calls + 1 ∧
    kills (signalTarget os st sig).2 = [((getPID (lookupAt os st)).1, sig)] ∧
    lookups (signalTarget os st sig).2 = 1 := by
  simp [signalTarget, kills_append, lookups_append, getPID_trace, kills, lookups]

theorem handleEvent_pause (os : OS) (st : Callback) (ev : jack_midi_event_t)
    (h0 : ev.buffer 0 = 0xb0) (h1 : ev.buffer 1 = 42) (h2 : ev.buffer 2 = 127) :
    handleEvent os st ev = signalTarget os st Signal.SIGSTOP := by
  simp [handleEvent, h0, h1, h2]

theorem handleEvent_resume (os : OS) (st : Callback) (ev : jack_midi_event_t)
    (h0 : ev.buffer 0 = 0xb0) (h1 : ev.buffer 1 = 41) (h2 : ev.buffer 2 = 127) :
    handleEvent os st ev = signalTarget os st Signal.SIGCONT := by
  simp [handleEvent, h0, h1, h2]

theorem handleEvent_other (os : OS) (st : Callback) (ev : jack_midi_event_t)
    (hp : ¬ (ev.buffer 0 = 0xb0 ∧ ev.buffer 1 = 42 ∧ ev.buffer 2 = 127))
    (hr : ¬ (ev.buffer 0 = 0xb0 ∧ ev.buffer 1 = 41 ∧ ev.buffer 2 = 127)) :
    handleEvent os st ev = (st, []) := by
  unfold handleEvent
  by_cases h0 : ev.buffer 0 = 0xb0
  · have hp2 : ¬ (ev.buffer 1 = 42 ∧ ev.buffer 2 = 127) := fun h => hp ⟨h0, h⟩
    have hr2 : ¬ (ev.buffer 1 = 41 ∧ ev.buffer 2 = 127) := fun h => hr ⟨h0, h⟩
    simp only [h0, if_true, if_neg hp2, if_neg hr2, List.append_nil]
  · simp only [if_neg h0]

theorem signalTarget_mem_kill (os : OS) (st : Callback) (sig sig2 : Signal) (pid rc : Int)
    (h : Effect.kill pid sig2 rc ∈ (signalTarget os st sig).2) : sig2 = sig := by
  have hk := mem_kills_of_mem _ _ _ _ h
  rw [(signalTarget_trace os st sig).2.1] at hk
  simp only [List.mem_singleton, Prod.mk.injEq] at hk
  exact hk.2

theorem eventLoop_append (os : OS) (st : Callback) (a b : List jack_midi_event_t) :
    eventLoop os st (a ++ b) = eventLoop os st a ++ eventLoop os (stateAfter os st a) b := by
  induction a generalizing st with
  | nil => simp [eventLoop, stateAfter]
  | cons e rest ih => simp [eventLoop, stateAfter, ih, List.append_assoc]

theorem process_trace (os : OS) (events : List jack_midi_event_t) :
    (process os events).2 = eventLoop os (start os) events := by
  cases events with
  | nil => simp [process, eventLoop]
  | cons e rest => simp [process]

theorem isTrigger_of_pause (ev : jack_midi_event_t)
    (hp : ev.buffer 0 = 0xb0 ∧ ev.buffer 1 = 42 ∧ ev.buffer 2 = 127) :
    isTrigger ev = true := by
  simp [isTrigger, isPause, hp.1, hp.2.1, hp.2.2]

theorem isTrigger_of_resume (ev : jack_midi_event_t)
    (hr : ev.buffer 0 = 0xb0 ∧ ev.buffer 1 = 41 ∧ ev.buffer 2 = 127) :
    isTrigger ev = true := by
  simp [isTrigger, isResume, hr.1, hr.2.1, hr.2.2]

theorem isTrigger_of_neither (ev : jack_midi_event_t)
    (hp : ¬ (ev.buffer 0 = 0xb0 ∧ ev.buffer 1 = 42 ∧ ev.buffer 2 = 127))
    (hr : ¬ (ev.buffer 0 = 0xb0 ∧ ev.buffer 1 = 41 ∧ ev.buffer 2 = 127)) :
    isTrigger ev = false := by
  cases h : isTrigger ev with
  | false => rfl
  | true =>
    simp only [isTrigger, isPause, isResume, Bool.or_eq_true, Bool.and_eq_true,
      beq_iff_eq] at h
    rcases h with h | h
    · exact absurd ⟨h.1.1, h.1.2, h.2⟩ hp
    · exact absurd ⟨h.1.1, h.1.2, h.2⟩ hr

theorem handleEvent_count (os : OS) (st : Callback) (ev : jack_midi_event_t) :
    (handleEvent os st ev).1.calls = st.calls + (if isTrigger ev then 1 else 0) ∧
    (kills (handleEvent os st ev).2).length = (if isTrigger ev then 1 else 0) ∧
    lookups (handleEvent os st ev).2 = (if isTrigger ev then 1 else 0) := by
  by_cases hp : ev.buffer 0 = 0xb0 ∧ ev.buffer 1 = 42 ∧ ev.buffer 2 = 127
  · have hs := signalTarget_trace os st Signal.SIGSTOP
    rw [handleEvent_pause os st ev hp.1 hp.2.1 hp.2.2, isTrigger_of_pause ev hp]
    simp [hs.1, hs.2.1, hs.2.2]
  · by_cases hr : ev.buffer 0 = 0xb0 ∧ ev.buffer 1 = 41 ∧ ev.buffer 2 = 127
    · have hs := signalTarget_trace os st Signal.SIGCONT
      rw [handleEvent_resume os st ev hr.1 hr.2.1 hr.2.2, isTrigger_of_resume ev hr]
      simp [hs.1, hs.2.1, hs.2.2]
    · rw [handleEvent_other os st ev hp hr, isTrigger_of_neither ev hp hr]
      simp [kills, lookups]

theorem eventLoop_count (os : OS) (st : Callback) (events : List jack_midi_event_t) :
    (kills (eventLoop os st events)).length = events.countP isTrigger ∧
    lookups (eventLoop os st events) = events.countP isTrigger := by
  induction events generalizing st with
  | nil => simp [eventLoop, kills, lookups]
  | cons ev rest ih =>
    have h := handleEvent_count os st ev
    have ih2 := ih (handleEvent os st ev).1
    simp only [eventLoop, kills_append, lookups_append, List.length_append, h.2.1, h.2.2,
      ih2.1, ih2.2, List.countP_cons]
    constructor <;> split <;> simp_all <;> omega

theorem signalTarget_eraseRc (nofile : Nat) (proc : Nat → Option (List dirent))
    (k1 k2 : Nat → Int) (st : Callback) (sig : Signal) :
    (signalTarget ⟨nofile, proc, k1⟩ st sig).1 = (signalTarget ⟨nofile, proc, k2⟩ st sig).1 ∧
    (signalTarget ⟨nofile, proc, k1⟩ st sig).2.map eraseRc =
      (signalTarget ⟨nofile, proc, k2⟩ st sig).2.map eraseRc := by
  simp [signalTarget, lookupAt, eraseRc]

theorem handleEvent_eraseRc (nofile : Nat) (proc : Nat → Option (List dirent))
    (k1 k2 : Nat → Int) (st : Callback) (ev : jack_midi_event_t) :
    (handleEvent ⟨nofile, proc, k1⟩ st ev).1 = (handleEvent ⟨nofile, proc, k2⟩ st ev).1 ∧
    (handleEvent ⟨nofile, proc, k1⟩ st ev).2.map eraseRc =
      (handleEvent ⟨nofile, proc, k2⟩ st ev).2.map eraseRc := by
  by_cases hp : ev.buffer 0 = 0xb0 ∧ ev.buffer 1 = 42 ∧ ev.buffer 2 = 127
  · rw [handleEvent_pause _ st ev hp.1 hp.2.1 hp.2.2, handleEvent_pause _ st ev hp.1 hp.2.1 hp.2.2]
    exact signalTarget_eraseRc nofile proc k1 k2 st _
  · by_cases hr : ev.buffer 0 = 0xb0 ∧ ev.buffer 1 = 41 ∧ ev.buffer 2 = 127
    · rw [handleEvent_resume _ st ev hr.1 hr.2.1 hr.2.2,
        handleEvent_resume _ st ev hr.1 hr.2.1 hr.2.2]
      exact signalTarget_eraseRc nofile proc k1 k2 st _
    · rw [handleEvent_other _ st ev hp hr, handleEvent_other _ st ev hp hr]
      simp

theorem eventLoop_eraseRc (nofile : Nat) (proc : Nat → Option (List dirent))
    (k1 k2 : Nat → Int) (st : Callback) (events : List jack_midi_event_t) :
    (eventLoop ⟨nofile, proc, k1⟩ st events).map eraseRc =
      (eventLoop ⟨nofile, proc, k2⟩ st events).map eraseRc := by
  induction events generalizing st with
  | nil => simp [eventLoop]
  | cons ev rest ih =>
    have h := handleEvent_eraseRc nofile proc k1 k2 st ev
    simp only [eventLoop, List.map_append, h.2, h.1, ih]

theorem eventLoop_eq_nil (os : OS) (st : Callback) (events : List jack_midi_event_t) :
    eventLoop os st events = [] ↔ ∀ ev ∈ events, isTrigger ev = false := by
  constructor
  · intro h ev hev
    have hc := (eventLoop_count os st events).1
    rw [h] at hc
    simp only [kills, List.length_nil] at hc
    have h0 : events.countP isTrigger = 0 := hc.symm
    rw [List.countP_eq_zero] at h0
    simpa using h0 ev hev
  · intro h
    induction events generalizing st with
    | nil => rfl
    | cons ev rest ih =>
      have hev : isTrigger ev = false := h ev (List.mem_cons_self _ _)
      have hnp : ¬ (ev.buffer 0 = 0xb0 ∧ ev.buffer 1 = 42 ∧ ev.buffer 2 = 127) := by
        intro hp
        rw [isTrigger_of_pause ev hp] at hev
        exact Bool.false_ne_true hev.symm
      have hnr : ¬ (ev.buffer 0 = 0xb0 ∧ ev.buffer 1 = 41 ∧ ev.buffer 2 = 127) := by
        intro hr
        rw [isTrigger_of_resume ev hr] at hev
        exact Bool.false_ne_true hev.symm
      simp only [eventLoop, handleEvent_other os st ev hnp hnr, List.nil_append]
      exact ih st (fun e he => h e (List.mem_cons_of_mem _ he))

theorem kills_single_pause (os : OS) (ev : jack_midi_event_t)
    (h0 : ev.buffer 0 = 0xb0) (h1 : ev.buffer 1 = 42) (h2 : ev.buffer 2 = 127) :
    kills (process os [ev]).2 = [((getPID (lookupAt os (start os))).1, Signal.SIGSTOP)] := by
  rw [process_trace]
  simp only [eventLoop, handleEvent_pause os _ ev h0 h1 h2, List.append_nil,
    (signalTarget_trace os (start os) Signal.SIGSTOP).2.1]

theorem kills_single_resume (os : OS) (ev : jack_midi_event_t)
    (h0 : ev.buffer 0 = 0xb0) (h1 : ev.buffer 1 = 41) (h2 : ev.buffer 2 = 127) :
    kills (process os [ev]).2 = [((getPID (lookupAt os (start os))).1, Signal.SIGCONT)] := by
  rw [process_trace]
  simp only [eventLoop, handleEvent_resume os _ ev h0 h1 h2, List.append_nil,
    (signalTarget_trace os (start os) Signal.SIGCONT).2.1]

/-- The two deliveries of a batch of a Pause trigger followed by a Resume trigger:
each goes to what its own lookup returns, the second lookup being made with the
descriptors the first one left. -/
theorem kills_pause_resume (os : OS) (ev1 ev2 : jack_midi_event_t)
    (h10 : ev1.buffer 0 = 0xb0) (h11 : ev1.buffer 1 = 42) (h12 : ev1.buffer 2 = 127)
    (h20 : ev2.buffer 0 = 0xb0) (h21 : ev2.buffer 1 = 41) (h22 : ev2.buffer 2 = 127) :
    kills (process os [ev1, ev2]).2 =
      [((getPID (lookupAt os (start os))).1, Signal.SIGSTOP),
       ((getPID (lookupAt os (signalTarget os (start os) Signal.SIGSTOP).1)).1,
          Signal.SIGCONT)] := by
  rw [process_trace]
  simp only [eventLoop, handleEvent_pause os _ ev1 h10 h11 h12,
    handleEvent_resume os _ ev2 h20 h21 h22, List.append_nil, kills_append,
    (signalTarget_trace os _ Signal.SIGSTOP).2.1, (signalTarget_trace os _ Signal.SIGCONT).2.1,
    List.singleton_append]

/-- With at least four descriptors left and the same `/proc` at both lookups, the
Resume lookup of a Pause, Resume batch resolves what the Pause lookup resolved, and
the target ends running. -/
theorem pause_resume_with_descriptors (os : OS) (p : Int) (ev1 ev2 : jack_midi_event_t)
    (hfd : 4 ≤ os.nofile) (hsame : os.proc 1 = os.proc 0)
    (hp : (getPID (os.proc 0)).1 = p)
    (h10 : ev1.buffer 0 = 0xb0) (h11 : ev1.buffer 1 = 42) (h12 : ev1.buffer 2 = 127)
    (h20 : ev2.buffer 0 = 0xb0) (h21 : ev2.buffer 1 = 41) (h22 : ev2.buffer 2 = 127) :
    kills (process os [ev1, ev2]).2 = [(p, Signal.SIGSTOP), (p, Signal.SIGCONT)] ∧
    ∀ s0 : RunState, runStateAfter p (kills (process os [ev1, ev2]).2) s0 = RunState.running := by
  have hw : withDescriptors os.nofile (os.proc 0) = os.proc 0 :=
    withDescriptors_of_two_le _ _ (by omega)
  have e1 : lookupAt os (start os) = os.proc 0 := by
    simp only [lookupAt, start]
    exact hw
  have hl : leaked (os.proc 0) ≤ 2 := by
    cases h : os.proc 0 with
    | none => simp [leaked]
    | some ents => simpa [leaked] using leakLoop_le ents
  have e2 : lookupAt os (signalTarget os (start os) Signal.SIGSTOP).1 = os.proc 0 := by
    simp only [lookupAt, signalTarget, start, hw, Nat.zero_add, hsame]
    exact withDescriptors_of_two_le _ _ (by omega)
  have hk := kills_pause_resume os ev1 ev2 h10 h11 h12 h20 h21 h22
  rw [e1, e2, hp] at hk
  refine ⟨hk, ?_⟩
  intro s0
  rw [hk]
  simp [runStateAfter, deliver]

/-! ## The claims -/

/-- Claim C1: for every event of a batch handled by `process`, the calls made for it
are those of the loop body at its position, and among them there is a `kill` with
`SIGSTOP` exactly when the event is `0xB0, 42, 127`, a `kill` with `SIGCONT` exactly
when it is `0xB0, 41, 127`, and for any other event there is no call at all (no
process lookup, no signal). -/
theorem process_classifies_event (os : OS) (pre post : List jack_midi_event_t)
    (ev : jack_midi_event_t) :
    (process os (pre ++ ev :: post)).2 =
        eventLoop os (start os) pre ++
          (handleEvent os (stateAfter os (start os) pre) ev).2 ++
          eventLoop os (handleEvent os (stateAfter os (start os) pre) ev).1 post ∧
    ((∃ pid rc, Effect.kill pid Signal.SIGSTOP rc ∈
        (handleEvent os (stateAfter os (start os) pre) ev).2) ↔
      (ev.buffer 0 = 0xb0 ∧ ev.buffer 1 = 42 ∧ ev.buffer 2 = 127)) ∧
    ((∃ pid rc, Effect.kill pid Signal.SIGCONT rc ∈
        (handleEvent os (stateAfter os (start os) pre) ev).2) ↔
      (ev.buffer 0 = 0xb0 ∧ ev.buffer 1 = 41 ∧ ev.buffer 2 = 127)) ∧
    (¬ (ev.buffer 0 = 0xb0 ∧ ev.buffer 1 = 42 ∧ ev.buffer 2 = 127) →
      ¬ (ev.buffer 0 = 0xb0 ∧ ev.buffer 1 = 41 ∧ ev.buffer 2 = 127) →
      (handleEvent os (stateAfter os (start os) pre) ev).2 = []) := by
  refine ⟨?_, ?_, ?_, ?_⟩
  · rw [process_trace, eventLoop_append]
    simp [eventLoop, List.append_assoc]
  · by_cases hp : ev.buffer 0 = 0xb0 ∧ ev.buffer 1 = 42 ∧ ev.buffer 2 = 127
    · rw [handleEvent_pause os _ ev hp.1 hp.2.1 hp.2.2]
      simp only [hp, and_self, iff_true]
      exact ⟨_, _, List.mem_append_right _ (List.mem_singleton_self _)⟩
    · simp only [hp, iff_false]
      rintro ⟨pid, rc, hmem⟩
      by_cases hr : ev.buffer 0 = 0xb0 ∧ ev.buffer 1 = 41 ∧ ev.buffer 2 = 127
      · rw [handleEvent_resume os _ ev hr.1 hr.2.1 hr.2.2] at hmem
        exact Signal.noConfusion (signalTarget_mem_kill _ _ _ _ _ _ hmem)
      · rw [handleEvent_other os _ ev hp hr] at hmem
        simp at hmem
  · by_cases hr : ev.buffer 0 = 0xb0 ∧ ev.buffer 1 = 41 ∧ ev.buffer 2 = 127
    · rw [handleEvent_resume os _ ev hr.1 hr.2.1 hr.2.2]
      simp only [hr, and_self, iff_true]
      exact ⟨_, _, List.mem_append_right _ (List.mem_singleton_self _)⟩
    · simp only [hr, iff_false]
      rintro ⟨pid, rc, hmem⟩
      by_cases hp : ev.buffer 0 = 0xb0 ∧ ev.buffer 1 = 42 ∧ ev.buffer 2 = 127
      · rw [handleEvent_pause os _ ev hp.1 hp.2.1 hp.2.2] at hmem
        exact Signal.noConfusion (signalTarget_mem_kill _ _ _ _ _ _ hmem)
      · rw [handleEvent_other os _ ev hp hr] at hmem
        simp at hmem
  · intro hp hr
    rw [handleEvent_other os _ ev hp hr]

/-- Witness for claim C1: in a batch of a note-on, a Pause trigger and a Control-Change
with another value, the middle event is the one that is acted on. -/
theorem process_classifies_event_witness :
    (∃ pid rc, Effect.kill pid Signal.SIGSTOP rc ∈
        (handleEvent (osOf tableFound)
          (stateAfter (osOf tableFound) (start (osOf tableFound)) [midi 0x90 42 127])
          (midi 0xb0 42 127)).2) ∧
    (handleEvent (osOf tableFound)
      (stateAfter (osOf tableFound) (start (osOf tableFound))
        [midi 0x90 42 127, midi 0xb0 42 127])
      (midi 0xb0 42 126)).2 = [] :=
  ⟨(process_classifies_event (osOf tableFound) [midi 0x90 42 127] [midi 0xb0 42 126]
      (midi 0xb0 42 127)).2.1.mpr (by decide),
   (process_classifies_event (osOf tableFound) [midi 0x90 42 127, midi 0xb0 42 127] []
      (midi 0xb0 42 126)).2.2.2 (by decide) (by decide)⟩

/-- Claim C2, the code at the failing input: with no process named `valheim...` in
the table, a Pause trigger makes `process` call `kill(0, SIGSTOP)` and a Resume
trigger `kill(0, SIGCONT)`: the not-found value 0 of `getPID` is passed to `kill`
unchecked. -/
theorem process_not_found_kills_zero :
    (getPID (lookupAt (osOf tableNotFound) (start (osOf tableNotFound)))).1 = 0 ∧
    kills (process (osOf tableNotFound) [midi 0xb0 42 127]).2 = [(0, Signal.SIGSTOP)] ∧
    kills (process (osOf tableNotFound) [midi 0xb0 41 127]).2 = [(0, Signal.SIGCONT)] := by
  decide

theorem find_congr_of_forall {α : Type} (p q : α → Bool) (l : List α)
    (h : ∀ x ∈ l, p x = q x) : l.find? p = l.find? q := by
  induction l with
  | nil => rfl
  | cons x xs ih =>
    have hx := h x (List.mem_cons_self _ _)
    have ih2 := ih (fun y hy => h y (List.mem_cons_of_mem _ hy))
    simp only [List.find?_cons, hx, ih2]

/-- Claim C3 as stated fails: the name `x⏎valheim` does not begin with `valheim`, so
the lookup of the specification finds nothing; `getPID` reads the `comm` file line by
line, matches its second line and returns the identifier 7. -/
theorem getPID_matches_later_line :
    specLookup tableTwoLines = 0 ∧
    (getPID (some (procOf tableTwoLines))).1 = 7 ∧
    (getPID (some (procOf tableTwoLines))).1 ≠ specLookup tableTwoLines := by
  decide

/-- Claim C3, amended: for every process table whose identifiers are positive and
below `2^31` and whose names are single lines shorter than 99 bytes, `getPID` returns
the identifier of the first record whose name begins with `"valheim"`, and returns
the not-found value 0 exactly when no name has that prefix. -/
theorem getPID_first_prefix_match (table : List (Nat × List Char))
    (hwf : ∀ r ∈ table, 0 < r.1 ∧ r.1 < 2 ^ 31 ∧ '\n' ∉ r.2 ∧ r.2.length < 99) :
    (getPID (some (procOf table))).1 = specLookup table ∧
    ((getPID (some (procOf table))).1 = 0 ↔ ∀ r ∈ table, ¬ target <+: r.2) := by
  have hval : (getPID (some (procOf table))).1 = specLookup table := by
    have h1 := readdirLoop_procOf table (fun r hr => (hwf r hr).2.1)
    have h2 : firstLineMatch table = table.find? (fun r => target.isPrefixOf r.2) :=
      find_congr_of_forall _ _ table
        (fun r hr => scanComm_commOf r.2 (hwf r hr).2.2.1 (hwf r hr).2.2.2)
    simp only [getPID, h1, h2, specLookup]
  refine ⟨hval, ?_⟩
  rw [hval]
  unfold specLookup
  cases hf : table.find? (fun r => target.isPrefixOf r.2) with
  | none =>
    simp only [true_iff]
    intro r hr hpre
    have := List.find?_eq_none.mp hf r hr
    exact this (List.isPrefixOf_iff_prefix.mpr hpre)
  | some r =>
    have hmem : r ∈ table := List.mem_of_find?_eq_some hf
    have hpos : 0 < r.1 := (hwf r hmem).1
    have hp : target.isPrefixOf r.2 = true := by
      have := List.find?_some hf
      simpa using this
    constructor
    · intro h0
      have : (r.1 : Int) ≠ 0 := by exact_mod_cast (Nat.pos_iff_ne_zero.mp hpos)
      exact absurd h0 this
    · intro hall
      exact absurd (List.isPrefixOf_iff_prefix.mp hp) (hall r hmem)

/-- Witness for claim C3: `valheim_server` (identifier 23) is found, `Valheim` is not a
match; without `valheim_server` the result is 0. -/
theorem getPID_first_prefix_match_witness :
    (getPID (some (procOf tableFound))).1 = 23 ∧
    (getPID (some (procOf tableNotFound))).1 = 0 :=
  ⟨(getPID_first_prefix_match tableFound (by decide)).1.trans (by decide),
   (getPID_first_prefix_match tableNotFound (by decide)).1.trans (by decide)⟩

/-- Claim C4: when the lookup of the callback resolves the identifier `p`, a batch of
the single event `0xB0, 42, 127` makes `process` deliver exactly one signal,
`SIGSTOP` to `p`, and a batch of the single event `0xB0, 41, 127` exactly one signal,
`SIGCONT` to `p`; the list of deliveries holds nothing else, so no other identifier
is signalled. -/
theorem process_single_trigger (os : OS) (p : Int) (ev : jack_midi_event_t)
    (hp : (getPID (lookupAt os (start os))).1 = p)
    (h0 : ev.buffer 0 = 0xb0) (h2 : ev.buffer 2 = 127) :
    (ev.buffer 1 = 42 → kills (process os [ev]).2 = [(p, Signal.SIGSTOP)]) ∧
    (ev.buffer 1 = 41 → kills (process os [ev]).2 = [(p, Signal.SIGCONT)]) := by
  subst hp
  exact ⟨fun h1 => kills_single_pause os ev h0 h1 h2,
    fun h1 => kills_single_resume os ev h0 h1 h2⟩

/-- Witness for claim C4: with `valheim_server` running as process 23. -/
theorem process_single_trigger_witness :
    (getPID (lookupAt (osOf tableFound) (start (osOf tableFound)))).1 = 23 ∧
    kills (process (osOf tableFound) [midi 0xb0 42 127]).2 = [(23, Signal.SIGSTOP)] ∧
    kills (process (osOf tableFound) [midi 0xb0 41 127]).2 = [(23, Signal.SIGCONT)] :=
  ⟨by decide,
   (process_single_trigger (osOf tableFound) 23 (midi 0xb0 42 127) (by decide) (by decide)
      (by decide)).1 (by decide),
   (process_single_trigger (osOf tableFound) 23 (midi 0xb0 41 127) (by decide) (by decide)
      (by decide)).2 (by decide)⟩

/-- Claim C5, the code at the failing input: `valheim_server` runs as process 23 and
the callback starts with two descriptors left.  The Pause lookup finds 23 and
returns from inside the loops, with the directory stream and the `comm` file of 23
still open; the Resume lookup then cannot open `/proc`, `getPID` returns 1, and
`SIGCONT` goes to process 1: the target stays stopped.  With three descriptors
left the Resume lookup fails at `fopen` and `SIGCONT` goes to 0; a third trigger
then finds `/proc` closed to it. -/
theorem process_resume_after_leak :
    (process (osWith 2 tableFound) [midi 0xb0 42 127, midi 0xb0 41 127]).2 =
      [Effect.opendir,
       Effect.readdir, Effect.fopen 1, Effect.fgets, Effect.fgets, Effect.fclose,
       Effect.readdir, Effect.fopen 23, Effect.fgets,
       Effect.kill 23 Signal.SIGSTOP 0,
       Effect.opendir, Effect.perror,
       Effect.kill 1 Signal.SIGCONT 0] ∧
    runStateAfter 23
        (kills (process (osWith 2 tableFound) [midi 0xb0 42 127, midi 0xb0 41 127]).2)
        RunState.running = RunState.stopped ∧
    kills (process (osWith 3 tableFound) [midi 0xb0 42 127, midi 0xb0 41 127]).2 =
      [(23, Signal.SIGSTOP), (0, Signal.SIGCONT)] ∧
    kills (process (osWith 3 tableFound)
        [midi 0xb0 42 127, midi 0xb0 41 127, midi 0xb0 41 127]).2 =
      [(23, Signal.SIGSTOP), (0, Signal.SIGCONT), (1, Signal.SIGCONT)] := by
  decide

/-- Claim C6: for every batch, every state of `/proc` and of the descriptors and
every outcome of the `kill` calls: `process` returns 0; it makes exactly one `kill`
call per recognised event, whatever that call returns (a failed delivery is not
repeated); and the calls it makes, for every event of the batch, are the same under
any two assignments of outcomes to the `kill` calls. -/
theorem process_ignores_kill_result (nofile : Nat) (proc : Nat → Option (List dirent))
    (k1 k2 : Nat → Int) (events : List jack_midi_event_t) (st : Callback)
    (ev : jack_midi_event_t) :
    (process ⟨nofile, proc, k1⟩ events).1 = 0 ∧
    (kills (handleEvent ⟨nofile, proc, k1⟩ st ev).2).length = (if isTrigger ev then 1 else 0) ∧
    (kills (process ⟨nofile, proc, k1⟩ events).2).length = events.countP isTrigger ∧
    (process ⟨nofile, proc, k1⟩ events).2.map eraseRc =
      (process ⟨nofile, proc, k2⟩ events).2.map eraseRc := by
  refine ⟨?_, (handleEvent_count _ st ev).2.1, ?_, ?_⟩
  · unfold process; split <;> rfl
  · rw [process_trace]; exact (eventLoop_count _ _ events).1
  · rw [process_trace, process_trace]
    exact eventLoop_eraseRc nofile proc k1 k2 _ events

/-- Claim C7 as stated fails: on a batch holding one Pause trigger the callback
itself opens and reads `/proc`, opens and reads `comm` files and delivers the
signal: the trace of `process` is the whole lookup followed by the `kill`. -/
theorem process_callback_does_io :
    (process (osOf tableFound) [midi 0xb0 42 127]).2 =
      [Effect.opendir,
       Effect.readdir, Effect.fopen 1, Effect.fgets, Effect.fgets, Effect.fclose,
       Effect.readdir, Effect.fopen 23, Effect.fgets,
       Effect.kill 23 Signal.SIGSTOP 0] := by
  decide

/-- Claim C7, amended: for every batch, `process` performs the process lookup and the
signal delivery on its own execution path, one lookup and one `kill` per recognised
event; its trace is empty (no directory or file operation, no signal) exactly when
the batch holds no recognised event. -/
theorem process_io_per_trigger (os : OS) (events : List jack_midi_event_t) :
    lookups (process os events).2 = events.countP isTrigger ∧
    (kills (process os events).2).length = events.countP isTrigger ∧
    ((process os events).2 = [] ↔ ∀ ev ∈ events, isTrigger ev = false) := by
  rw [process_trace]
  exact ⟨(eventLoop_count os _ events).2, (eventLoop_count os _ events).1,
    eventLoop_eq_nil os _ events⟩

/-- Claim C8: for every event, the loop body of `process` never delivers both a
`SIGSTOP` and a `SIGCONT`, makes at most one process lookup and at most one `kill`
call; and for every batch the number of `kill` calls of `process` is at most the
number of events. -/
theorem process_at_most_one_action (os : OS) (st : Callback) (ev : jack_midi_event_t)
    (events : List jack_midi_event_t) :
    ¬ ((∃ pid rc, Effect.kill pid Signal.SIGSTOP rc ∈ (handleEvent os st ev).2) ∧
       (∃ pid rc, Effect.kill pid Signal.SIGCONT rc ∈ (handleEvent os st ev).2)) ∧
    lookups (handleEvent os st ev).2 ≤ 1 ∧
    (kills (handleEvent os st ev).2).length ≤ 1 ∧
    (kills (process os events).2).length ≤ events.length := by
  have hc := handleEvent_count os st ev
  refine ⟨?_, ?_, ?_, ?_⟩
  · rintro ⟨⟨p1, r1, h1⟩, ⟨p2, r2, h2⟩⟩
    have m1 := mem_kills_of_mem _ _ _ _ h1
    have m2 := mem_kills_of_mem _ _ _ _ h2
    have hlen : (kills (handleEvent os st ev).2).length ≤ 1 := by
      rw [hc.2.1]; split <;> omega
    match hk : kills (handleEvent os st ev).2, hlen with
    | [], _ => rw [hk] at m1; simp at m1
    | [x], _ =>
      rw [hk] at m1 m2
      simp only [List.mem_singleton] at m1 m2
      have := m1.trans m2.symm
      simp at this
    | _ :: _ :: _, hl => simp at hl
  · rw [hc.2.2]; split <;> omega
  · rw [hc.2.1]; split <;> omega
  · rw [process_trace, (eventLoop_count os _ events).1]
    exact List.countP_le_length _

/-- Claim C9: when `/proc` cannot be opened, `getPID` returns 1 after `perror`, a
value different from the 0 it returns when the scan finds nothing; a Pause trigger
handled then delivers `SIGSTOP` to identifier 1 and a Resume trigger `SIGCONT` to
identifier 1, whatever the `kill` calls return. -/
theorem getPID_opendir_failure (os : OS) (ev : jack_midi_event_t)
    (hdir : lookupAt os (start os) = none)
    (h0 : ev.buffer 0 = 0xb0) (h2 : ev.buffer 2 = 127) :
    getPID none = (1, [Effect.opendir, Effect.perror]) ∧
    (getPID none).1 ≠ (getPID (some [])).1 ∧
    (getPID (some [])).1 = 0 ∧
    (ev.buffer 1 = 42 → kills (process os [ev]).2 = [(1, Signal.SIGSTOP)]) ∧
    (ev.buffer 1 = 41 → kills (process os [ev]).2 = [(1, Signal.SIGCONT)]) := by
  refine ⟨rfl, by decide, rfl, ?_, ?_⟩
  · intro h1
    rw [kills_single_pause os ev h0 h1 h2, hdir]
    rfl
  · intro h1
    rw [kills_single_resume os ev h0 h1 h2, hdir]
    rfl

/-- Witness for claim C9: the two triggers, when `opendir` fails although descriptors
are left, and when a running `valheim_server` cannot be looked up because no
descriptor is left. -/
theorem getPID_opendir_failure_witness :
    kills (process osNoProc [midi 0xb0 42 127]).2 = [(1, Signal.SIGSTOP)] ∧
    kills (process (osWith 0 tableFound) [midi 0xb0 41 127]).2 = [(1, Signal.SIGCONT)] :=
  ⟨(getPID_opendir_failure osNoProc (midi 0xb0 42 127) (by decide) (by decide)
      (by decide)).2.2.2.1 (by decide),
   (getPID_opendir_failure (osWith 0 tableFound) (midi 0xb0 41 127) (by decide) (by decide)
      (by decide)).2.2.2.2 (by decide)⟩

theorem scanLines_only_fgets (fuel : Nat) (stream : List Char) :
    List.count Effect.readdir (scanLines fuel stream).2 = 0 := by
  induction fuel generalizing stream with
  | zero => simp [scanLines]
  | succ fuel ih =>
    cases stream with
    | nil => simp [scanLines, fgets]
    | cons c cs =>
      simp only [scanLines, fgets]
      split
      · simp
      · simp [ih]

theorem readdirLoop_stops (pre post : List dirent) (e : dirent)
    (hd : isdigitHead e.d_name = true) (hc : e.comm = none)
    (hpre : ∀ x ∈ pre, hit x = false) :
    (readdirLoop (pre ++ e :: post)).1 = 0 ∧
    readdirLoop (pre ++ e :: post) = readdirLoop (pre ++ [e]) ∧
    List.count Effect.readdir (readdirLoop (pre ++ e :: post)).2 ≤ pre.length + 1 := by
  induction pre with
  | nil => simp [readdirLoop, hd, hc]
  | cons x rest ih =>
    obtain ⟨h1, h2, h3⟩ := ih (fun y hy => hpre y (List.mem_cons_of_mem _ hy))
    have hx : hit x = false := hpre x (List.mem_cons_self _ _)
    by_cases hxd : isdigitHead x.d_name = true
    · cases hxc : x.comm with
      | none => simp [readdirLoop, hxd, hxc]
      | some stream =>
        have hs : (scanComm stream).1 = false := by
          simpa [hit, hxd, hxc] using hx
        have hcnt : List.count Effect.readdir (scanComm stream).2 = 0 :=
          scanLines_only_fgets stream.length stream
        have e1 : ∀ l : List dirent, readdirLoop (x :: l) =
            ((readdirLoop l).1,
              Effect.readdir :: Effect.fopen (toPid (strtol x.d_name)) :: (scanComm stream).2
                ++ Effect.fclose :: (readdirLoop l).2) := by
          intro l
          simp [readdirLoop, hxd, hxc, hs]
        simp only [List.cons_append, e1]
        refine ⟨h1, by rw [h2], ?_⟩
        simp [List.count_cons, List.count_append, hcnt]
        omega
    · have hxd2 : isdigitHead x.d_name = false := by
        cases h : isdigitHead x.d_name with
        | false => rfl
        | true => exact absurd h hxd
      have e1 : ∀ l : List dirent, readdirLoop (x :: l) =
          ((readdirLoop l).1, Effect.readdir :: (readdirLoop l).2) := by
        intro l
        simp [readdirLoop, hxd2]
      simp only [List.cons_append, e1]
      refine ⟨h1, by rw [h2], ?_⟩
      simp [List.count_cons]
      omega

/-- Claim C10: when the `comm` file of a numeric entry cannot be opened and no entry
before it is one `getPID` returns at, `getPID` returns 0 from that entry: the result
and the calls made are those for the listing cut after the entry, so nothing after it
is read (at most one `readdir` per entry up to it), even an entry that matches. -/
theorem getPID_stops_at_unreadable (pre post : List dirent) (e : dirent)
    (hd : isdigitHead e.d_name = true) (hc : e.comm = none)
    (hpre : ∀ x ∈ pre, hit x = false) :
    (getPID (some (pre ++ e :: post))).1 = 0 ∧
    getPID (some (pre ++ e :: post)) = getPID (some (pre ++ [e])) ∧
    List.count Effect.readdir (getPID (some (pre ++ e :: post))).2 ≤ pre.length + 1 := by
  have h := readdirLoop_stops pre post e hd hc hpre
  refine ⟨h.1, ?_, ?_⟩
  · simp only [getPID, h.2.1]
  · simpa [getPID, List.count_cons] using h.2.2

/-- Witness for claim C10: process 17 exits during the scan; `valheim_server` (23), listed
after it, is never reached. -/
theorem getPID_stops_at_unreadable_witness :
    hit { d_name := "23".toList, comm := some (commOf "valheim_server".toList) } = true ∧
    (getPID (some procRace)).1 = 0 ∧
    (getPID (some procRace)).2 =
      [Effect.opendir, Effect.readdir,
       Effect.readdir, Effect.fopen 1, Effect.fgets, Effect.fgets, Effect.fclose,
       Effect.readdir, Effect.fopen 17] :=
  ⟨by decide,
   (getPID_stops_at_unreadable
      [{ d_name := "self".toList, comm := none },
       { d_name := "1".toList, comm := some (commOf "systemd".toList) }]
      [{ d_name := "23".toList, comm := some (commOf "valheim_server".toList) }]
      { d_name := "17".toList, comm := none } (by decide) (by decide) (by decide)).1,
   by decide⟩

end ValheimPause
